import Mathlib

/-!
Verification of the word-monitor chat bot (src/main.py) against its
natural-language specification.

Strings are modelled as `List Char`.  Python's `str.lower`, the NFKD/ASCII
folding step, the repeat-collapsing regex, the punctuation strip and
whitespace splitting are each translated below next to the source line they
come from.  Timestamps (Python floats from `time.time()`) are modelled as
rationals, which preserves the ordered-field comparisons the code performs.
-/

set_option maxRecDepth 10000

/-- Whitespace predicate of Python `str.split()` on the ASCII range
(code points 9-13, 28-31 and 32).  Only ASCII characters reach a split in
the program, because splitting always happens after the ASCII folding step. -/
def isSpace (c : Char) : Bool :=
  decide ((9 ≤ c.toNat ∧ c.toNat ≤ 13) ∨ (28 ≤ c.toNat ∧ c.toNat ≤ 32))

/-- ASCII uppercase letter test (code points 65-90). -/
def isAsciiUpper (c : Char) : Bool :=
  decide (65 ≤ c.toNat ∧ c.toNat ≤ 90)

/-- The fixed punctuation set removed by `TextCleaner.clean_text`
(src/main.py line 18): comma, full stop, apostrophe (39), double quote (34),
tilde, hyphen, underscore, question mark, exclamation mark, asterisk. -/
def punctChars : List Char :=
  [',', '.', Char.ofNat 39, Char.ofNat 34, '~', '-', '_', '?', '!', '*']

/-- Membership in the punctuation set of line 18. -/
def isPunctChar (c : Char) : Bool :=
  decide (c ∈ punctChars)

/-- Python `str.lower()` (line 14), restricted to the ASCII fragment the
embedding works in: uppercase A-Z map to a-z, everything else is fixed. -/
def pyLower (c : Char) : Char :=
  if isAsciiUpper c then Char.ofNat (c.toNat + 32) else c

/-- Lowercasing of a whole string (line 14). -/
def pyLowerStr (s : List Char) : List Char :=
  s.map pyLower

/-- Lines 15-16: `unicodedata.normalize("NFKD", text)` followed by
`text.encode("ASCII", "ignore").decode("ASCII")`.  NFKD is the identity on
ASCII text and the ignore-encoding keeps exactly the code points below 128,
so the composition is modelled by the ASCII filter; this is exact for ASCII
input. -/
def asciiFilter (s : List Char) : List Char :=
  s.filter (fun c => decide (c.toNat < 128))

/-- Line 17: `re.sub(r"(.)\1+", r"\1", text)` collapses every maximal run of
two or more identical consecutive characters to a single occurrence.  The
regex metacharacter `.` does not match a newline, so runs of newlines are
left alone. -/
def collapseRuns : List Char → List Char
  | [] => []
  | [c] => [c]
  | c :: d :: rest =>
    if c = d ∧ c ≠ '\n' then collapseRuns (d :: rest)
    else c :: collapseRuns (d :: rest)

/-- Line 18: removal of every character of the fixed punctuation set. -/
def punctRemove (s : List Char) : List Char :=
  s.filter (fun c => !isPunctChar c)

/-- Helper for Python `str.split()`: `cur` is the (possibly empty) token
currently being read. -/
def splitWsAux : List Char → List Char → List (List Char)
  | cur, [] => if cur = [] then [] else [cur]
  | cur, c :: rest =>
    if isSpace c then
      if cur = [] then splitWsAux [] rest else cur :: splitWsAux [] rest
    else splitWsAux (cur ++ [c]) rest

/-- Python `str.split()` with no separator (lines 19 and 202): split on runs
of whitespace, dropping empty tokens. -/
def splitWs (s : List Char) : List (List Char) :=
  splitWsAux [] s

/-- Python `" ".join(tokens)` (line 19). -/
def spaceJoin : List (List Char) → List Char
  | [] => []
  | [t] => t
  | t :: t' :: ts => t ++ ' ' :: spaceJoin (t' :: ts)

/-- `TextCleaner.clean_text` (src/main.py lines 12-20): lowercase, NFKD plus
ASCII-ignore folding, run collapsing, punctuation strip, whitespace
normalisation. -/
def clean_text (s : List Char) : List Char :=
  spaceJoin (splitWs (punctRemove (collapseRuns (asciiFilter (pyLowerStr s)))))

/-- Python's substring operator `pattern in string` (line 31). -/
def isSubstringOf : List Char → List Char → Bool
  | p, [] => p.isEmpty
  | p, c :: rest => p.isPrefixOf (c :: rest) || isSubstringOf p rest

/-- `SpamDetector` (src/main.py lines 23-31).  The constructor's
`min_similarity` float is stored but never consulted by any method, so it is
not part of the model. -/
structure SpamDetector where
  spam_patterns : List (List Char)
deriving DecidableEq

/-- `SpamDetector.__init__` (line 25): each configured pattern is lowercased
(only lowercased: it is not passed through `clean_text`). -/
def SpamDetector.init (patterns : List (List Char)) : SpamDetector :=
  ⟨patterns.map pyLowerStr⟩

/-- `SpamDetector.is_spam` (lines 29-31): clean the message, then test
whether any stored pattern occurs in it as a contiguous substring. -/
def SpamDetector.is_spam (d : SpamDetector) (message : List Char) : Bool :=
  d.spam_patterns.any (fun p => isSubstringOf p (clean_text message))

/-- The mutable bot state of `WordMonitorBot` (lines 34-51) that the message
pipeline and the administrative commands read and write. -/
structure BotState where
  word_responses : List (List Char × List Char)
  spam_detector : SpamDetector
  response_delay : ℚ
  last_response_time : ℚ
deriving DecidableEq

/-- The per-message data consumed from the transport layer. -/
structure Message where
  content : List Char
  echo : Bool
  authorName : List Char
  authorIsMod : Bool
  channelName : List Char

/-- Outcome of processing one inbound chat message in `event_message`. -/
inductive MsgOutcome where
  | ignoredEcho
  | command
  | spamSuppressed (author : List Char)
  | spamPrivileged (author : List Char)
  | triggerResponse (response : List Char)
  | noAction
deriving DecidableEq

/-- External actions the bot attempts against the transport. -/
inductive BotAction where
  | send (text : List Char)
  | deleteMessage
  | handleCommands
deriving DecidableEq

/-- The chat text of the timeout command issued on line 186. -/
def timeoutCommandText (author : List Char) : List Char :=
  ("/timeout ").data ++ author ++ (" 3").data

/-- The ordered list of external actions each outcome performs
(lines 177, 186-187, 207). -/
def actionsOf : MsgOutcome → List BotAction
  | .command => [.handleCommands]
  | .spamSuppressed author => [.send (timeoutCommandText author), .deleteMessage]
  | .triggerResponse r => [.send r]
  | _ => []

/-- The privilege test used by every command handler and by the spam branch:
`author.is_mod or author.name.lower() == channel.name.lower()`
(lines 82-84, 181-182 and analogous). -/
def privileged (isMod : Bool) (author channel : List Char) : Bool :=
  isMod || pyLowerStr author == pyLowerStr channel

/-- Line 176: `message.content.startswith("!")`. -/
def startsWithBang : List Char → Bool
  | [] => false
  | c :: _ => c == '!'

/-- The trigger loop of lines 204-209: walk `word_responses` in insertion
order and return the response of the first trigger whose cleaned form is a
token of the message. -/
def respondLoop : List (List Char × List Char) → List (List Char) → Option (List Char)
  | [], _ => none
  | (t, r) :: rest, words =>
    if clean_text t ∈ words then some r else respondLoop rest words

/-- `WordMonitorBot.event_message` (src/main.py lines 171-209): echo check,
command dispatch, spam check with privilege-gated suppression, cooldown
check, then trigger matching.  `now` is the value of `time.time()` read on
line 197. -/
def event_message (st : BotState) (msg : Message) (now : ℚ) : MsgOutcome × BotState :=
  if msg.echo then (.ignoredEcho, st)
  else if startsWithBang msg.content then (.command, st)
  else if st.spam_detector.is_spam msg.content then
    if privileged msg.authorIsMod msg.authorName msg.channelName then
      (.spamPrivileged msg.authorName, st)
    else
      (.spamSuppressed msg.authorName, st)
  else if now - st.last_response_time < st.response_delay then (.noAction, st)
  else
    match respondLoop st.word_responses (splitWs (clean_text msg.content)) with
    | some r => (.triggerResponse r, { st with last_response_time := now })
    | none => (.noAction, st)

/-- Result of one administrative command handler: the state afterwards, the
reply sent with `ctx.send` (if any), and whether `save_config` was called. -/
structure CmdEffect where
  state : BotState
  reply : Option (List Char)
  persistCalled : Bool
deriving DecidableEq

/-- A single apostrophe character, used in the reply strings. -/
def quoteChar : List Char :=
  [Char.ofNat 39]

/-- Reply of every handler whose `save_config` call fails (e.g. line 91). -/
def failedSaveReply : List Char :=
  ("Failed to save configuration").data

/-- Python dict assignment `d[k] = v` on an insertion-ordered dictionary: an
existing key keeps its position and gets the new value, a new key is
appended. -/
def upsert : List (List Char × List Char) → List Char → List Char → List (List Char × List Char)
  | [], k, v => [(k, v)]
  | (k', v') :: rest, k, v =>
    if k' = k then (k', v) :: rest else (k', v') :: upsert rest k v

/-- Python `k in d` for the insertion-ordered dictionary (line 101). -/
def dictContains (m : List (List Char × List Char)) (k : List Char) : Bool :=
  m.any (fun p => p.1 == k)

/-- Python `del d[k]` (line 102); keys are unique, so removing the first
entry with the key removes the only one. -/
def dictErase : List (List Char × List Char) → List Char → List (List Char × List Char)
  | [], _ => []
  | (k', v') :: rest, k => if k' = k then rest else (k', v') :: dictErase rest k

/-- Python `list.remove(x)` (line 152): remove the first occurrence. -/
def removeFirst : List (List Char) → List Char → List (List Char)
  | [], _ => []
  | y :: rest, x => if y = x then rest else y :: removeFirst rest x

/-- Python `", ".join(items)` used by the two list commands. -/
def joinComma : List (List Char) → List Char
  | [] => []
  | [x] => x
  | x :: y :: rest => x ++ (", ").data ++ joinComma (y :: rest)

/-- `WordMonitorBot.add_response` (lines 79-91): on privilege, upsert the
lowercased trigger and persist.  `saveOk` is the success of the
`save_config` call. -/
def add_response (st : BotState) (isMod : Bool) (author channel trigger response : List Char)
    (saveOk : Bool) : CmdEffect :=
  if !privileged isMod author channel then ⟨st, none, false⟩
  else
    let st' := { st with word_responses := upsert st.word_responses (pyLowerStr trigger) response }
    if saveOk then
      ⟨st', some (("Added response for ").data ++ quoteChar ++ trigger ++ quoteChar), true⟩
    else ⟨st', some failedSaveReply, true⟩

/-- `WordMonitorBot.delete_response` (lines 93-108). -/
def delete_response (st : BotState) (isMod : Bool) (author channel trigger : List Char)
    (saveOk : Bool) : CmdEffect :=
  if !privileged isMod author channel then ⟨st, none, false⟩
  else if dictContains st.word_responses (pyLowerStr trigger) then
    let st' := { st with word_responses := dictErase st.word_responses (pyLowerStr trigger) }
    if saveOk then
      ⟨st', some (("Deleted response for ").data ++ quoteChar ++ trigger ++ quoteChar), true⟩
    else ⟨st', some failedSaveReply, true⟩
  else ⟨st, some (("No response found for ").data ++ quoteChar ++ trigger ++ quoteChar), false⟩

/-- `WordMonitorBot.list_responses` (lines 110-126). -/
def list_responses (st : BotState) (isMod : Bool) (author channel : List Char) : CmdEffect :=
  if !privileged isMod author channel then ⟨st, none, false⟩
  else if st.word_responses = [] then ⟨st, some (("No responses configured").data), false⟩
  else
    ⟨st, some (("Current responses: ").data ++
      joinComma (st.word_responses.map (fun p => p.1 ++ (": ").data ++ p.2))), false⟩

/-- `WordMonitorBot.add_spam_pattern` (lines 128-140): append the lowercased
pattern and persist. -/
def add_spam_pattern (st : BotState) (isMod : Bool) (author channel pattern : List Char)
    (saveOk : Bool) : CmdEffect :=
  if !privileged isMod author channel then ⟨st, none, false⟩
  else
    let st' := { st with
      spam_detector := ⟨st.spam_detector.spam_patterns ++ [pyLowerStr pattern]⟩ }
    if saveOk then
      ⟨st', some (("Added spam pattern ").data ++ quoteChar ++ pattern ++ quoteChar), true⟩
    else ⟨st', some failedSaveReply, true⟩

/-- `WordMonitorBot.delete_spam_pattern` (lines 142-158): the argument is
lowercased first (line 150), so both the membership test and the replies use
the lowercased pattern. -/
def delete_spam_pattern (st : BotState) (isMod : Bool) (author channel pattern : List Char)
    (saveOk : Bool) : CmdEffect :=
  if !privileged isMod author channel then ⟨st, none, false⟩
  else
    let p := pyLowerStr pattern
    if p ∈ st.spam_detector.spam_patterns then
      let st' := { st with spam_detector := ⟨removeFirst st.spam_detector.spam_patterns p⟩ }
      if saveOk then
        ⟨st', some (("Deleted spam pattern ").data ++ quoteChar ++ p ++ quoteChar), true⟩
      else ⟨st', some failedSaveReply, true⟩
    else ⟨st, some (("Spam pattern ").data ++ quoteChar ++ p ++ quoteChar ++ (" not found").data), false⟩

/-- `WordMonitorBot.list_spam_patterns` (lines 160-169). -/
def list_spam_patterns (st : BotState) (isMod : Bool) (author channel : List Char) : CmdEffect :=
  if !privileged isMod author channel then ⟨st, none, false⟩
  else ⟨st, some (("Current spam patterns: ").data ++ joinComma st.spam_detector.spam_patterns), false⟩

/-- Decidable test for "no run of two or more identical consecutive
characters" (spec section 3). -/
def noRunB : List Char → Bool
  | [] => true
  | [_] => true
  | c :: d :: rest => !(c == d) && noRunB (d :: rest)

/-- Transcribed from the spec's NormalizedText data model (section 3): the
output string is lowercase-only, ASCII-only, has no run of two or more
identical consecutive characters, no character of the fixed punctuation set,
whitespace collapsed to single plain spaces, and no leading or trailing
whitespace.  The last two requirements are expressed by the round trip
`spaceJoin (splitWs s) = s` together with every whitespace character being a
plain space. -/
def NormalizedTextB (s : List Char) : Bool :=
  s.all (fun c => decide (c.toNat < 128)) &&
  s.all (fun c => !isAsciiUpper c) &&
  noRunB s &&
  s.all (fun c => !isPunctChar c) &&
  s.all (fun c => !isSpace c || c == ' ') &&
  decide (spaceJoin (splitWs s) = s)

/-- Shorthand for the cleaning pipeline before whitespace normalisation. -/
def cleanCore (s : List Char) : List Char :=
  punctRemove (collapseRuns (asciiFilter (pyLowerStr s)))

/-- The relation left between consecutive characters by the run-collapsing
regex of line 17: they are not an identical non-newline pair. -/
def collapsedRel (a b : Char) : Prop :=
  ¬(a = b ∧ a ≠ '\n')

theorem toNat_ofNat_valid {n : Nat} (h : n < 55296) : (Char.ofNat n).toNat = n := by
  rw [Char.ofNat, dif_pos (Or.inl h)]
  rfl

theorem toNat_pyLower_of_upper {c : Char} (h : isAsciiUpper c = true) :
    (pyLower c).toNat = c.toNat + 32 := by
  have hb : 65 ≤ c.toNat ∧ c.toNat ≤ 90 := by simpa [isAsciiUpper] using h
  rw [pyLower, if_pos h, toNat_ofNat_valid (by omega)]

theorem pyLower_eq_self {c : Char} (h : isAsciiUpper c = false) : pyLower c = c := by
  rw [pyLower, if_neg]
  simp [h]

theorem isAsciiUpper_pyLower (c : Char) : isAsciiUpper (pyLower c) = false := by
  by_cases h : isAsciiUpper c = true
  · have hb : 65 ≤ c.toNat ∧ c.toNat ≤ 90 := by simpa [isAsciiUpper] using h
    have hl : (pyLower c).toNat = c.toNat + 32 := toNat_pyLower_of_upper h
    simp only [isAsciiUpper, hl, decide_eq_false_iff_not]
    omega
  · rw [pyLower_eq_self (Bool.eq_false_iff.mpr h)]
    exact Bool.eq_false_iff.mpr h

theorem toNat_mem_of_punct {c : Char} (h : isPunctChar c = true) :
    c.toNat ∈ [44, 46, 39, 34, 126, 45, 95, 63, 33, 42] := by
  have hm : c ∈ punctChars := by simpa [isPunctChar] using h
  fin_cases hm <;> decide

theorem isPunctChar_eq_false_of_between {c : Char} (h1 : 65 ≤ c.toNat) (h2 : c.toNat ≤ 122)
    (h3 : c.toNat ≠ 95) (h4 : c.toNat ≠ 126) : isPunctChar c = false := by
  cases hp : isPunctChar c
  · rfl
  · have := toNat_mem_of_punct hp
    simp at this
    omega

theorem isPunctChar_pyLower (c : Char) : isPunctChar (pyLower c) = isPunctChar c := by
  by_cases h : isAsciiUpper c = true
  · have hb : 65 ≤ c.toNat ∧ c.toNat ≤ 90 := by simpa [isAsciiUpper] using h
    have hl : (pyLower c).toNat = c.toNat + 32 := toNat_pyLower_of_upper h
    have h1 : isPunctChar (pyLower c) = false := by
      apply isPunctChar_eq_false_of_between <;> omega
    have h2 : isPunctChar c = false := by
      apply isPunctChar_eq_false_of_between <;> omega
    rw [h1, h2]
  · rw [pyLower_eq_self (Bool.eq_false_iff.mpr h)]

theorem mem_collapseRuns : ∀ (l : List Char) (c : Char), c ∈ collapseRuns l → c ∈ l
  | [], _, h => by simp [collapseRuns] at h
  | [d], c, h => by simpa [collapseRuns] using h
  | d :: e :: rest, c, h => by
    simp only [collapseRuns] at h
    by_cases hde : d = e ∧ d ≠ '\n'
    · rw [if_pos hde] at h
      exact List.mem_cons_of_mem _ (mem_collapseRuns (e :: rest) c h)
    · rw [if_neg hde] at h
      rcases List.mem_cons.mp h with h1 | h2
      · exact h1 ▸ List.mem_cons_self _ _
      · exact List.mem_cons_of_mem _ (mem_collapseRuns (e :: rest) c h2)

theorem head?_collapseRuns : ∀ (c : Char) (l : List Char), (collapseRuns (c :: l)).head? = some c
  | _, [] => rfl
  | c, d :: rest => by
    simp only [collapseRuns]
    by_cases h : c = d ∧ c ≠ '\n'
    · rw [if_pos h, head?_collapseRuns d rest, h.1]
    · rw [if_neg h]
      rfl

theorem chain'_collapseRuns : ∀ l : List Char, (collapseRuns l).Chain' collapsedRel
  | [] => List.chain'_nil
  | [c] => List.chain'_singleton c
  | c :: d :: rest => by
    simp only [collapseRuns]
    by_cases h : c = d ∧ c ≠ '\n'
    · rw [if_pos h]
      exact chain'_collapseRuns (d :: rest)
    · rw [if_neg h, List.chain'_cons']
      refine ⟨?_, chain'_collapseRuns (d :: rest)⟩
      intro y hy
      rw [head?_collapseRuns d rest] at hy
      simp only [Option.mem_def, Option.some.injEq] at hy
      subst hy
      exact h

theorem collapseRuns_eq_self : ∀ l : List Char, l.Chain' collapsedRel → collapseRuns l = l
  | [], _ => rfl
  | [_], _ => rfl
  | c :: d :: rest, h => by
    rw [List.chain'_cons] at h
    simp only [collapseRuns]
    rw [if_neg h.1, collapseRuns_eq_self (d :: rest) h.2]

theorem splitWsAux_append : ∀ (t cur l : List Char), (∀ c ∈ t, isSpace c = false) →
    splitWsAux cur (t ++ l) = splitWsAux (cur ++ t) l
  | [], cur, l, _ => by simp
  | c :: t, cur, l, ht => by
    have hc : isSpace c = false := ht c (List.mem_cons_self c t)
    simp only [List.cons_append, splitWsAux, hc, Bool.false_eq_true, if_false, List.append_eq]
    rw [splitWsAux_append t (cur ++ [c]) l (fun d hd => ht d (List.mem_cons_of_mem c hd))]
    rw [List.append_assoc, List.singleton_append]

theorem splitWsAux_nil_of_ne {cur : List Char} (h : cur ≠ []) : splitWsAux cur [] = [cur] := by
  simp only [splitWsAux]
  rw [if_neg h]

theorem splitWs_spaceJoin : ∀ ts : List (List Char),
    (∀ t ∈ ts, t ≠ [] ∧ ∀ c ∈ t, isSpace c = false) → splitWs (spaceJoin ts) = ts
  | [], _ => rfl
  | [t], h => by
    obtain ⟨hne, hns⟩ := h t (List.mem_cons_self t [])
    show splitWsAux [] (spaceJoin [t]) = [t]
    simp only [spaceJoin]
    have h1 := splitWsAux_append t [] [] hns
    rw [List.append_nil, List.nil_append] at h1
    rw [h1, splitWsAux_nil_of_ne hne]
  | t :: t' :: ts, h => by
    obtain ⟨hne, hns⟩ := h t (List.mem_cons_self _ _)
    show splitWsAux [] (spaceJoin (t :: t' :: ts)) = t :: t' :: ts
    simp only [spaceJoin]
    have h1 := splitWsAux_append t [] (' ' :: spaceJoin (t' :: ts)) hns
    rw [List.nil_append] at h1
    rw [h1]
    simp only [splitWsAux]
    rw [if_pos (by decide), if_neg hne]
    have h2 : splitWsAux [] (spaceJoin (t' :: ts)) = t' :: ts :=
      splitWs_spaceJoin (t' :: ts) (fun u hu => h u (List.mem_cons_of_mem _ hu))
    rw [h2]

theorem splitWsAux_tokens : ∀ (l cur : List Char), (∀ c ∈ cur, isSpace c = false) →
    ∀ t ∈ splitWsAux cur l, t ≠ [] ∧ ∀ c ∈ t, isSpace c = false ∧ (c ∈ cur ∨ c ∈ l) := by
  intro l
  induction l with
  | nil =>
    intro cur hcur t ht
    simp only [splitWsAux] at ht
    by_cases h : cur = []
    · rw [if_pos h] at ht
      simp at ht
    · rw [if_neg h] at ht
      simp only [List.mem_singleton] at ht
      subst ht
      exact ⟨h, fun c hc => ⟨hcur c hc, Or.inl hc⟩⟩
  | cons a l ih =>
    intro cur hcur t ht
    simp only [splitWsAux] at ht
    by_cases ha : isSpace a = true
    · rw [if_pos ha] at ht
      by_cases hc : cur = []
      · rw [if_pos hc] at ht
        obtain ⟨hne, hprop⟩ := ih [] (by simp) t ht
        refine ⟨hne, fun c hcm => ?_⟩
        obtain ⟨hsp, hmem⟩ := hprop c hcm
        rcases hmem with h1 | h2
        · simp at h1
        · exact ⟨hsp, Or.inr (List.mem_cons_of_mem _ h2)⟩
      · rw [if_neg hc] at ht
        rcases List.mem_cons.mp ht with rfl | ht'
        · exact ⟨hc, fun c hcm => ⟨hcur c hcm, Or.inl hcm⟩⟩
        · obtain ⟨hne, hprop⟩ := ih [] (by simp) t ht'
          refine ⟨hne, fun c hcm => ?_⟩
          obtain ⟨hsp, hmem⟩ := hprop c hcm
          rcases hmem with h1 | h2
          · simp at h1
          · exact ⟨hsp, Or.inr (List.mem_cons_of_mem _ h2)⟩
    · rw [if_neg ha] at ht
      have hcur' : ∀ c ∈ cur ++ [a], isSpace c = false := by
        intro c hcm
        rcases List.mem_append.mp hcm with h1 | h2
        · exact hcur c h1
        · rw [List.mem_singleton] at h2
          subst h2
          exact Bool.eq_false_iff.mpr ha
      obtain ⟨hne, hprop⟩ := ih (cur ++ [a]) hcur' t ht
      refine ⟨hne, fun c hcm => ?_⟩
      obtain ⟨hsp, hmem⟩ := hprop c hcm
      rcases hmem with h1 | h2
      · rcases List.mem_append.mp h1 with h3 | h4
        · exact ⟨hsp, Or.inl h3⟩
        · rw [List.mem_singleton] at h4
          subst h4
          exact ⟨hsp, Or.inr (List.mem_cons_self _ _)⟩
      · exact ⟨hsp, Or.inr (List.mem_cons_of_mem _ h2)⟩

theorem splitWsAux_chain' (R : Char → Char → Prop) : ∀ (l cur : List Char),
    (cur ++ l).Chain' R → ∀ t ∈ splitWsAux cur l, t.Chain' R := by
  intro l
  induction l with
  | nil =>
    intro cur hch t ht
    simp only [splitWsAux] at ht
    by_cases h : cur = []
    · rw [if_pos h] at ht
      simp at ht
    · rw [if_neg h] at ht
      simp only [List.mem_singleton] at ht
      subst ht
      simpa using hch
  | cons a l ih =>
    intro cur hch t ht
    simp only [splitWsAux] at ht
    by_cases ha : isSpace a = true
    · rw [if_pos ha] at ht
      have hl : ([] ++ l).Chain' R := by
        simpa using (List.Chain'.right_of_append hch).tail
      by_cases hc : cur = []
      · rw [if_pos hc] at ht
        exact ih [] hl t ht
      · rw [if_neg hc] at ht
        rcases List.mem_cons.mp ht with rfl | ht'
        · exact List.Chain'.left_of_append hch
        · exact ih [] hl t ht'
    · rw [if_neg ha] at ht
      have hch' : ((cur ++ [a]) ++ l).Chain' R := by
        rw [List.append_assoc, List.singleton_append]
        exact hch
      exact ih (cur ++ [a]) hch' t ht

theorem mem_spaceJoin : ∀ (ts : List (List Char)) (c : Char),
    c ∈ spaceJoin ts → c = ' ' ∨ ∃ t ∈ ts, c ∈ t
  | [], c, h => by simp [spaceJoin] at h
  | [t], c, h => Or.inr ⟨t, List.mem_cons_self t [], by simpa [spaceJoin] using h⟩
  | t :: t' :: ts, c, h => by
    simp only [spaceJoin] at h
    rcases List.mem_append.mp h with h1 | h2
    · exact Or.inr ⟨t, List.mem_cons_self _ _, h1⟩
    · rcases List.mem_cons.mp h2 with rfl | h3
      · exact Or.inl rfl
      · rcases mem_spaceJoin (t' :: ts) c h3 with h4 | ⟨u, hu, hc⟩
        · exact Or.inl h4
        · exact Or.inr ⟨u, List.mem_cons_of_mem _ hu, hc⟩

theorem head?_spaceJoin_cons (d : Char) (t'' : List Char) :
    ∀ ts : List (List Char), (spaceJoin ((d :: t'') :: ts)).head? = some d
  | [] => rfl
  | u :: ts => by simp [spaceJoin]

theorem chain'_ne_spaceJoin : ∀ ts : List (List Char),
    (∀ t ∈ ts, t ≠ [] ∧ t.Chain' (fun a b => a ≠ b) ∧ ∀ c ∈ t, isSpace c = false) →
    (spaceJoin ts).Chain' (fun a b => a ≠ b)
  | [], _ => List.chain'_nil
  | [t], h => (h t (List.mem_cons_self t [])).2.1
  | t :: t' :: ts, h => by
    obtain ⟨hne, hch, hns⟩ := h t (List.mem_cons_self _ _)
    have hrest : (spaceJoin (t' :: ts)).Chain' (fun a b => a ≠ b) :=
      chain'_ne_spaceJoin (t' :: ts) (fun u hu => h u (List.mem_cons_of_mem _ hu))
    obtain ⟨hne', _, hns'⟩ := h t' (List.mem_cons_of_mem _ (List.mem_cons_self _ _))
    simp only [spaceJoin]
    rw [List.chain'_append]
    refine ⟨hch, ?_, ?_⟩
    · rw [List.chain'_cons']
      refine ⟨?_, hrest⟩
      intro y hy
      obtain ⟨d, t'', rfl⟩ : ∃ d t'', t' = d :: t'' := by
        cases t' with
        | nil => exact absurd rfl hne'
        | cons d t'' => exact ⟨d, t'', rfl⟩
      rw [head?_spaceJoin_cons d t'' ts] at hy
      simp only [Option.mem_def, Option.some.injEq] at hy
      subst hy
      intro hyd
      have hd := hns' d (List.mem_cons_self d t'')
      rw [← hyd] at hd
      exact absurd hd (by decide)
    · intro x hx y hy
      have hxt : x ∈ t := List.mem_of_mem_getLast? hx
      simp only [List.head?_cons, Option.mem_def, Option.some.injEq] at hy
      subst hy
      intro hxy
      have := hns x hxt
      rw [hxy] at this
      exact absurd this (by decide)

theorem noRunB_iff : ∀ l : List Char, noRunB l = true ↔ l.Chain' (fun a b => a ≠ b)
  | [] => by simp [noRunB]
  | [c] => by simp [noRunB]
  | c :: d :: rest => by
    simp only [noRunB, Bool.and_eq_true, Bool.not_eq_true', beq_eq_false_iff_ne]
    rw [noRunB_iff (d :: rest), List.chain'_cons]

theorem clean_text_eq (s : List Char) : clean_text s = spaceJoin (splitWs (cleanCore s)) := rfl

theorem splitWs_tokens (l : List Char) :
    ∀ t ∈ splitWs l, t ≠ [] ∧ ∀ c ∈ t, isSpace c = false ∧ c ∈ l := by
  intro t ht
  obtain ⟨hne, hprop⟩ := splitWsAux_tokens l [] (by simp) t ht
  refine ⟨hne, fun c hc => ?_⟩
  obtain ⟨hsp, hmem⟩ := hprop c hc
  rcases hmem with h1 | h2
  · simp at h1
  · exact ⟨hsp, h2⟩

theorem mem_cleanCore_punct {s : List Char} {c : Char} (h : c ∈ cleanCore s) :
    isPunctChar c = false := by
  have := (List.mem_filter.mp h).2
  simpa using this

theorem mem_cleanCore_ascii {s : List Char} {c : Char} (h : c ∈ cleanCore s) :
    c.toNat < 128 := by
  have h1 : c ∈ collapseRuns (asciiFilter (pyLowerStr s)) := (List.mem_filter.mp h).1
  have h2 : c ∈ asciiFilter (pyLowerStr s) := mem_collapseRuns _ _ h1
  have := (List.mem_filter.mp h2).2
  simpa using this

theorem mem_cleanCore_lower {s : List Char} {c : Char} (h : c ∈ cleanCore s) :
    isAsciiUpper c = false := by
  have h1 : c ∈ collapseRuns (asciiFilter (pyLowerStr s)) := (List.mem_filter.mp h).1
  have h2 : c ∈ asciiFilter (pyLowerStr s) := mem_collapseRuns _ _ h1
  have h3 : c ∈ pyLowerStr s := (List.mem_filter.mp h2).1
  obtain ⟨d, _, rfl⟩ := List.mem_map.mp h3
  exact isAsciiUpper_pyLower d

theorem clean_text_chars {s : List Char} {c : Char} (h : c ∈ clean_text s) :
    c.toNat < 128 ∧ isAsciiUpper c = false ∧ isPunctChar c = false ∧
      (isSpace c = false ∨ c = ' ') := by
  rcases mem_spaceJoin _ c h with rfl | ⟨t, ht, hc⟩
  · exact ⟨by decide, by decide, by decide, Or.inr rfl⟩
  · obtain ⟨_, hprop⟩ := splitWs_tokens (cleanCore s) t ht
    obtain ⟨hsp, hmem⟩ := hprop c hc
    exact ⟨mem_cleanCore_ascii hmem, mem_cleanCore_lower hmem, mem_cleanCore_punct hmem,
      Or.inl hsp⟩

theorem clean_text_ws_fix (s : List Char) :
    spaceJoin (splitWs (clean_text s)) = clean_text s := by
  have hg : ∀ t ∈ splitWs (cleanCore s), t ≠ [] ∧ ∀ c ∈ t, isSpace c = false := by
    intro t ht
    obtain ⟨hne, hprop⟩ := splitWs_tokens (cleanCore s) t ht
    exact ⟨hne, fun c hc => (hprop c hc).1⟩
  rw [clean_text_eq, splitWs_spaceJoin _ hg]

theorem cleanCore_punct_free {s : List Char} (hp : ∀ c ∈ s, isPunctChar c = false) :
    cleanCore s = collapseRuns (asciiFilter (pyLowerStr s)) := by
  rw [cleanCore, punctRemove, List.filter_eq_self]
  intro a ha
  have h1 : a ∈ asciiFilter (pyLowerStr s) := mem_collapseRuns _ _ ha
  have h2 : a ∈ pyLowerStr s := (List.mem_filter.mp h1).1
  obtain ⟨d, hd, rfl⟩ := List.mem_map.mp h2
  rw [isPunctChar_pyLower d, hp d hd]
  rfl

theorem chain'_ne_of_collapsedRel : ∀ t : List Char, (∀ c ∈ t, isSpace c = false) →
    t.Chain' collapsedRel → t.Chain' (fun a b => a ≠ b)
  | [], _, _ => List.chain'_nil
  | [c], _, _ => List.chain'_singleton c
  | c :: d :: rest, hns, h => by
    rw [List.chain'_cons] at h ⊢
    refine ⟨?_, chain'_ne_of_collapsedRel (d :: rest)
      (fun x hx => hns x (List.mem_cons_of_mem _ hx)) h.2⟩
    intro hcd
    apply h.1
    refine ⟨hcd, ?_⟩
    intro hnl
    have hcs := hns c (List.mem_cons_self _ _)
    rw [hnl] at hcs
    exact absurd hcs (by decide)

theorem chain'_ne_clean_text {s : List Char} (hp : ∀ c ∈ s, isPunctChar c = false) :
    (clean_text s).Chain' (fun a b => a ≠ b) := by
  have hcore : (cleanCore s).Chain' collapsedRel := by
    rw [cleanCore_punct_free hp]
    exact chain'_collapseRuns _
  rw [clean_text_eq]
  apply chain'_ne_spaceJoin
  intro t ht
  obtain ⟨hne, hprop⟩ := splitWs_tokens (cleanCore s) t ht
  have hns : ∀ c ∈ t, isSpace c = false := fun c hc => (hprop c hc).1
  have hchR : t.Chain' collapsedRel :=
    splitWsAux_chain' collapsedRel (cleanCore s) [] (by simpa using hcore) t ht
  exact ⟨hne, chain'_ne_of_collapsedRel t hns hchR, hns⟩

theorem map_pyLower_eq_self : ∀ l : List Char, (∀ c ∈ l, isAsciiUpper c = false) →
    pyLowerStr l = l
  | [], _ => rfl
  | c :: rest, h => by
    rw [pyLowerStr, List.map_cons, pyLower_eq_self (h c (List.mem_cons_self _ _))]
    have hrec := map_pyLower_eq_self rest (fun d hd => h d (List.mem_cons_of_mem _ hd))
    rw [pyLowerStr] at hrec
    rw [hrec]

theorem clean_text_fix {y : List Char}
    (hA : ∀ c ∈ y, c.toNat < 128)
    (hU : ∀ c ∈ y, isAsciiUpper c = false)
    (hP : ∀ c ∈ y, isPunctChar c = false)
    (hC : y.Chain' (fun a b => a ≠ b))
    (hW : spaceJoin (splitWs y) = y) :
    clean_text y = y := by
  have h1 : pyLowerStr y = y := map_pyLower_eq_self y hU
  have h2 : asciiFilter y = y := by
    rw [asciiFilter, List.filter_eq_self]
    intro a ha
    simpa using hA a ha
  have h3 : collapseRuns y = y :=
    collapseRuns_eq_self y (hC.imp (fun a b hab => fun hcontra => hab hcontra.1))
  have h4 : punctRemove y = y := by
    rw [punctRemove, List.filter_eq_self]
    intro a ha
    rw [hP a ha]
    rfl
  show spaceJoin (splitWs (punctRemove (collapseRuns (asciiFilter (pyLowerStr y))))) = y
  rw [h1, h2, h3, h4, hW]

theorem clean_text_idem_punct_free {s : List Char} (hp : ∀ c ∈ s, isPunctChar c = false) :
    clean_text (clean_text s) = clean_text s := by
  apply clean_text_fix
  · intro c hc
    exact (clean_text_chars hc).1
  · intro c hc
    exact (clean_text_chars hc).2.1
  · intro c hc
    exact (clean_text_chars hc).2.2.1
  · exact chain'_ne_clean_text hp
  · exact clean_text_ws_fix s

theorem isSubstringOf_iff : ∀ p s : List Char, isSubstringOf p s = true ↔ p <:+: s
  | p, [] => by
    simp only [isSubstringOf, List.isEmpty_iff]
    constructor
    · intro h
      subst h
      exact List.nil_infix
    · intro h
      exact List.eq_nil_of_infix_nil h
  | p, c :: rest => by
    simp only [isSubstringOf, Bool.or_eq_true, List.isPrefixOf_iff_prefix]
    rw [isSubstringOf_iff p rest, List.infix_cons_iff]

theorem respondLoop_eq_find? : ∀ (wrs : List (List Char × List Char)) (words : List (List Char)),
    respondLoop wrs words = (wrs.find? (fun p => decide (clean_text p.1 ∈ words))).map Prod.snd
  | [], _ => rfl
  | (t, r) :: rest, words => by
    simp only [respondLoop]
    by_cases h : clean_text t ∈ words
    · rw [if_pos h, List.find?_cons_of_pos _ (by simpa using h)]
      rfl
    · rw [if_neg h, List.find?_cons_of_neg _ (by simpa using h), respondLoop_eq_find? rest words]

/-- Claim C1, counterexample: `clean_text` is not idempotent.  On the input
"a-a" the run collapse of line 17 sees no run, then the punctuation strip of
line 18 deletes the hyphen and produces "aa"; a second application collapses
that run to "a". -/
theorem c1_counterexample :
    clean_text (clean_text (("a-a").data)) ≠ clean_text (("a-a").data) := by
  decide

/-- Claim C1 (amended): `clean_text` is idempotent on every ASCII input that
contains no character of the punctuation set.  In general the punctuation
strip of line 18 can merge identical characters into a new run because it
runs after the run collapse of line 17, and only a second application
collapses that run. -/
theorem c1_amended (s : List Char)
    (_hA : ∀ c ∈ s, c.toNat < 128) (hP : ∀ c ∈ s, isPunctChar c = false) :
    clean_text (clean_text s) = clean_text s :=
  clean_text_idem_punct_free hP

/-- Claim C1 witness: the amended idempotence applied to the concrete ASCII,
punctuation-free input "soooo   cool". -/
theorem c1_witness :
    (∀ c ∈ ("soooo   cool").data, c.toNat < 128 ∧ isPunctChar c = false) ∧
    clean_text (clean_text (("soooo   cool").data)) = clean_text (("soooo   cool").data) :=
  ⟨by decide, c1_amended (("soooo   cool").data) (by decide) (by decide)⟩

/-- Claim C2, counterexample: both examples of the claim are false on the
code.  The message "FREE   MONEY!!" is cleaned to "fre money" (the run "EE"
collapses), while the configured pattern "free money" is only lowercased,
never run-collapsed, so it is not a substring; likewise "freedom" cleans to
"fredom", which does not contain the pattern "free". -/
theorem c2_counterexample :
    (SpamDetector.init [("free money").data]).is_spam (("FREE   MONEY!!").data) = false ∧
    (SpamDetector.init [("free").data]).is_spam (("freedom").data) = false := by
  constructor
  · decide
  · decide

/-- Claim C2 (amended): spam matching is substring-based on the cleaned
message, but configured patterns are only lowercased, so a pattern matches
only in its run-collapsed spelling: with pattern "fre money" configured,
is_spam("FREE   MONEY!!") is true, and with pattern "fre" configured,
is_spam("freedom") is true (a substring match inside "fredom"). -/
theorem c2_amended :
    (SpamDetector.init [("fre money").data]).is_spam (("FREE   MONEY!!").data) = true ∧
    (SpamDetector.init [("fre").data]).is_spam (("freedom").data) = true := by
  constructor
  · decide
  · decide

/-- Claim C3, counterexample: `clean_text "a-a" = "aa"` contains a run of
two identical consecutive characters, so the output violates the spec's
NormalizedText predicate. -/
theorem c3_counterexample :
    NormalizedTextB (clean_text (("a-a").data)) = false := by
  decide

/-- Claim C3 (amended): for every ASCII input the output of `clean_text` is
ASCII-only, lowercase-only, punctuation-free and whitespace-normalised
(only single plain spaces, none leading or trailing); the run-freeness
clause of the NormalizedText predicate additionally holds whenever the
input contains no punctuation character, but can fail otherwise because the
punctuation strip runs after the run collapse. -/
theorem c3_amended (s : List Char) (_hA : ∀ c ∈ s, c.toNat < 128) :
    ((clean_text s).all (fun c => decide (c.toNat < 128)) = true ∧
     (clean_text s).all (fun c => !isAsciiUpper c) = true ∧
     (clean_text s).all (fun c => !isPunctChar c) = true ∧
     (clean_text s).all (fun c => !isSpace c || c == ' ') = true ∧
     spaceJoin (splitWs (clean_text s)) = clean_text s) ∧
    ((∀ c ∈ s, isPunctChar c = false) → NormalizedTextB (clean_text s) = true) := by
  have hall : ∀ c ∈ clean_text s, c.toNat < 128 ∧ isAsciiUpper c = false ∧
      isPunctChar c = false ∧ (isSpace c = false ∨ c = ' ') :=
    fun c hc => clean_text_chars hc
  constructor
  · refine ⟨?_, ?_, ?_, ?_, clean_text_ws_fix s⟩
    · rw [List.all_eq_true]
      intro c hc
      exact decide_eq_true (hall c hc).1
    · rw [List.all_eq_true]
      intro c hc
      rw [(hall c hc).2.1]
      rfl
    · rw [List.all_eq_true]
      intro c hc
      rw [(hall c hc).2.2.1]
      rfl
    · rw [List.all_eq_true]
      intro c hc
      rcases (hall c hc).2.2.2 with h | h
      · rw [h]
        rfl
      · subst h
        rfl
  · intro hP
    simp only [NormalizedTextB, Bool.and_eq_true]
    refine ⟨⟨⟨⟨⟨?_, ?_⟩, ?_⟩, ?_⟩, ?_⟩, ?_⟩
    · rw [List.all_eq_true]
      intro c hc
      exact decide_eq_true (hall c hc).1
    · rw [List.all_eq_true]
      intro c hc
      rw [(hall c hc).2.1]
      rfl
    · rw [noRunB_iff]
      exact chain'_ne_clean_text hP
    · rw [List.all_eq_true]
      intro c hc
      rw [(hall c hc).2.2.1]
      rfl
    · rw [List.all_eq_true]
      intro c hc
      rcases (hall c hc).2.2.2 with h | h
      · rw [h]
        rfl
      · subst h
        rfl
    · exact decide_eq_true (clean_text_ws_fix s)

/-- Claim C3 witness: the amended statement applied to the ASCII,
punctuation-free input "so   cooool", whose cleaned form satisfies the full
NormalizedText predicate. -/
theorem c3_witness :
    (∀ c ∈ ("so   cooool").data, c.toNat < 128) ∧
    NormalizedTextB (clean_text (("so   cooool").data)) = true :=
  ⟨by decide, (c3_amended (("so   cooool").data) (by decide)).2 (by decide)⟩

/-- Claim C4: the cooldown check guards the whole trigger stage.  For every
non-echo, non-command, non-spam message arriving while
now - lastResponseTime < responseDelay, the outcome is no action and the
state (in particular lastResponseTime) is unchanged, whatever the message
content; and whenever a trigger response does fire, lastResponseTime is set
to the current time, so no further trigger response can fire on any channel
until the delay has elapsed again. -/
theorem c4_cooldown :
    (∀ (st : BotState) (msg : Message) (now : ℚ),
      msg.echo = false → startsWithBang msg.content = false →
      st.spam_detector.is_spam msg.content = false →
      now - st.last_response_time < st.response_delay →
      event_message st msg now = (MsgOutcome.noAction, st)) ∧
    (∀ (st : BotState) (msg : Message) (now : ℚ) (r : List Char),
      (event_message st msg now).1 = MsgOutcome.triggerResponse r →
      (event_message st msg now).2.last_response_time = now) := by
  constructor
  · intro st msg now h1 h2 h3 h4
    simp [event_message, h1, h2, h3, h4]
  · intro st msg now r h
    cases he : msg.echo
    · cases hb : startsWithBang msg.content
      · cases hs : st.spam_detector.is_spam msg.content
        · by_cases hc : now - st.last_response_time < st.response_delay
          · simp [event_message, he, hb, hs, hc] at h
          · cases hr : respondLoop st.word_responses (splitWs (clean_text msg.content)) with
            | none => simp [event_message, he, hb, hs, hc, hr] at h
            | some r' => simp [event_message, he, hb, hs, hc, hr]
        · by_cases hp : privileged msg.authorIsMod msg.authorName msg.channelName = true
          · simp [event_message, he, hb, hs, hp] at h
          · simp [event_message, he, hb, hs, hp] at h
      · simp [event_message, he, hb] at h
    · simp [event_message, he] at h

/-- Concrete bot state used by the witnesses: one trigger "hello" → "hi",
one spam pattern "casino", a three-second delay, last response at time 0. -/
def sampleState : BotState :=
  ⟨[(("hello").data, ("hi").data)], ⟨[("casino").data]⟩, 3, 0⟩

/-- Concrete non-spam message containing the trigger word. -/
def sampleMsg : Message :=
  ⟨("hello").data, false, ("bob").data, false, ("chan").data⟩

/-- Concrete non-spam message containing no trigger word. -/
def sampleMsgNoTrigger : Message :=
  ⟨("good morning").data, false, ("bob").data, false, ("chan").data⟩

/-- Concrete spam message from an unprivileged author. -/
def spamMsg : Message :=
  ⟨("go to casino now").data, false, ("bob").data, false, ("chan").data⟩

/-- Concrete spam message from a moderator. -/
def spamMsgMod : Message :=
  ⟨("go to casino now").data, false, ("bob").data, true, ("chan").data⟩

/-- Claim C4 witness: at time 2 (inside the three-second window that started
at time 0) the trigger message produces no action and leaves the state
unchanged; at time 5 it fires and sets lastResponseTime to 5. -/
theorem c4_witness :
    event_message sampleState sampleMsg 2 = (MsgOutcome.noAction, sampleState) ∧
    (event_message sampleState sampleMsg 5).1 = MsgOutcome.triggerResponse (("hi").data) ∧
    (event_message sampleState sampleMsg 5).2.last_response_time = 5 := by
  have hfire : (event_message sampleState sampleMsg 5).1 =
      MsgOutcome.triggerResponse (("hi").data) := by
    have h1 : sampleMsg.echo = false := rfl
    have h2 : startsWithBang sampleMsg.content = false := by decide
    have h3 : sampleState.spam_detector.is_spam sampleMsg.content = false := by decide
    have h4 : ¬((5 : ℚ) - sampleState.last_response_time < sampleState.response_delay) := by
      show ¬((5 : ℚ) - 0 < 3)
      norm_num
    have hr : respondLoop sampleState.word_responses (splitWs (clean_text sampleMsg.content)) =
        some (("hi").data) := by decide
    simp [event_message, h1, h2, h3, h4, hr]
  refine ⟨?_, hfire, ?_⟩
  · exact c4_cooldown.1 sampleState sampleMsg 2 rfl (by decide) (by decide)
      (by show (2 : ℚ) - 0 < 3; norm_num)
  · exact c4_cooldown.2 sampleState sampleMsg 5 (("hi").data) hfire

/-- Claim C5: when the cooldown is inactive on a non-echo, non-command,
non-spam message, the message is cleaned and split into whitespace tokens
and word_responses is scanned in insertion order; the first entry whose
cleaned trigger occurs as an exact token yields exactly its response text
and sets lastResponseTime to now, and if no entry matches, nothing fires
and the state is unchanged. -/
theorem c5_trigger_matching (st : BotState) (msg : Message) (now : ℚ)
    (h1 : msg.echo = false) (h2 : startsWithBang msg.content = false)
    (h3 : st.spam_detector.is_spam msg.content = false)
    (h4 : ¬(now - st.last_response_time < st.response_delay)) :
    (∀ t r, st.word_responses.find?
        (fun p => decide (clean_text p.1 ∈ splitWs (clean_text msg.content))) = some (t, r) →
      event_message st msg now =
        (MsgOutcome.triggerResponse r, { st with last_response_time := now })) ∧
    (st.word_responses.find?
        (fun p => decide (clean_text p.1 ∈ splitWs (clean_text msg.content))) = none →
      event_message st msg now = (MsgOutcome.noAction, st)) := by
  constructor
  · intro t r hf
    simp [event_message, h1, h2, h3, h4, respondLoop_eq_find?, hf]
  · intro hf
    simp [event_message, h1, h2, h3, h4, respondLoop_eq_find?, hf]

/-- Claim C5 witness: at time 5 the message "hello" fires the first (and
only) matching trigger with response "hi", and "good morning" fires
nothing. -/
theorem c5_witness :
    event_message sampleState sampleMsg 5 =
      (MsgOutcome.triggerResponse (("hi").data),
        { sampleState with last_response_time := 5 }) ∧
    event_message sampleState sampleMsgNoTrigger 5 = (MsgOutcome.noAction, sampleState) := by
  have h4 : ¬((5 : ℚ) - sampleState.last_response_time < sampleState.response_delay) := by
    show ¬((5 : ℚ) - 0 < 3)
    norm_num
  constructor
  · exact (c5_trigger_matching sampleState sampleMsg 5 rfl (by decide) (by decide) h4).1
      (("hello").data) (("hi").data) (by decide)
  · exact (c5_trigger_matching sampleState sampleMsgNoTrigger 5 rfl (by decide) (by decide)
      h4).2 (by decide)

/-- Claim C6: a non-echo, non-command message classified as spam ends at the
spam stage whatever the author's privilege: the state is unchanged, the
outcome is one of the two spam outcomes, and no trigger response is ever
produced for the message. -/
theorem c6_spam_short_circuit (st : BotState) (msg : Message) (now : ℚ)
    (h1 : msg.echo = false) (h2 : startsWithBang msg.content = false)
    (h3 : st.spam_detector.is_spam msg.content = true) :
    (event_message st msg now).2 = st ∧
    ((event_message st msg now).1 = MsgOutcome.spamSuppressed msg.authorName ∨
     (event_message st msg now).1 = MsgOutcome.spamPrivileged msg.authorName) ∧
    ∀ r, (event_message st msg now).1 ≠ MsgOutcome.triggerResponse r := by
  by_cases hp : privileged msg.authorIsMod msg.authorName msg.channelName = true
  · simp [event_message, h1, h2, h3, hp]
  · simp [event_message, h1, h2, h3, hp]

/-- Claim C6 witness: the spam message "go to casino now", which also
contains no echo or command marker, leaves the state unchanged and produces
no trigger response even though the state has a trigger configured. -/
theorem c6_witness :
    (event_message sampleState spamMsg 5).2 = sampleState ∧
    ∀ r, (event_message sampleState spamMsg 5).1 ≠ MsgOutcome.triggerResponse r := by
  have h := c6_spam_short_circuit sampleState spamMsg 5 rfl (by decide) (by decide)
  exact ⟨h.1, h.2.2⟩

/-- Claim C7: on a spam-classified message, a privileged author (moderator
or broadcaster) is exempt — the outcome performs no external action at all —
while an unprivileged author receives a timeout followed by deletion of the
message, in that order. -/
theorem c7_privilege_exemption (st : BotState) (msg : Message) (now : ℚ)
    (h1 : msg.echo = false) (h2 : startsWithBang msg.content = false)
    (h3 : st.spam_detector.is_spam msg.content = true) :
    (privileged msg.authorIsMod msg.authorName msg.channelName = true →
      event_message st msg now = (MsgOutcome.spamPrivileged msg.authorName, st) ∧
      actionsOf (event_message st msg now).1 = []) ∧
    (privileged msg.authorIsMod msg.authorName msg.channelName = false →
      event_message st msg now = (MsgOutcome.spamSuppressed msg.authorName, st) ∧
      actionsOf (event_message st msg now).1 =
        [BotAction.send (timeoutCommandText msg.authorName), BotAction.deleteMessage]) := by
  constructor
  · intro hp
    simp [event_message, h1, h2, h3, hp, actionsOf]
  · intro hp
    simp [event_message, h1, h2, h3, hp, actionsOf]

/-- Claim C7 witness: the moderator's spam message is let through with no
action, while the unprivileged author's identical message yields the
timeout-then-delete action pair. -/
theorem c7_witness :
    event_message sampleState spamMsgMod 5 =
      (MsgOutcome.spamPrivileged (("bob").data), sampleState) ∧
    actionsOf (event_message sampleState spamMsg 5).1 =
      [BotAction.send (timeoutCommandText (("bob").data)), BotAction.deleteMessage] := by
  constructor
  · exact ((c7_privilege_exemption sampleState spamMsgMod 5 rfl (by decide) (by decide)).1
      (by decide)).1
  · exact ((c7_privilege_exemption sampleState spamMsg 5 rfl (by decide) (by decide)).2
      (by decide)).2

/-- Claim C8: every administrative command handler invoked by an
unprivileged author changes no state, sends no reply of any kind, and never
calls save_config. -/
theorem c8_command_authorization (st : BotState) (isMod : Bool)
    (author channel trigger response pattern : List Char) (saveOk : Bool)
    (h : privileged isMod author channel = false) :
    add_response st isMod author channel trigger response saveOk = ⟨st, none, false⟩ ∧
    delete_response st isMod author channel trigger saveOk = ⟨st, none, false⟩ ∧
    list_responses st isMod author channel = ⟨st, none, false⟩ ∧
    add_spam_pattern st isMod author channel pattern saveOk = ⟨st, none, false⟩ ∧
    delete_spam_pattern st isMod author channel pattern saveOk = ⟨st, none, false⟩ ∧
    list_spam_patterns st isMod author channel = ⟨st, none, false⟩ := by
  simp [add_response, delete_response, list_responses, add_spam_pattern,
    delete_spam_pattern, list_spam_patterns, h]

/-- Claim C8 witness: the unprivileged author "bob" in channel "chan" gets
silently ignored by addresponse and delspam, with no state change, no reply
and no persistence call. -/
theorem c8_witness :
    add_response sampleState false (("bob").data) (("chan").data) (("hey").data)
      (("yo").data) true = ⟨sampleState, none, false⟩ ∧
    delete_spam_pattern sampleState false (("bob").data) (("chan").data)
      (("casino").data) true = ⟨sampleState, none, false⟩ := by
  have h := c8_command_authorization sampleState false (("bob").data) (("chan").data)
    (("hey").data) (("yo").data) (("casino").data) true (by decide)
  exact ⟨h.1, h.2.2.2.2.1⟩

/-- Claim C9: a privileged delresponse (or delspam) whose argument is absent
from the trigger map (or pattern list) reports the distinct not-found reply,
leaves the state unchanged, and never calls save_config. -/
theorem c9_delete_absent (st : BotState) (isMod : Bool)
    (author channel trigger pattern : List Char) (saveOk : Bool)
    (hpriv : privileged isMod author channel = true) :
    (dictContains st.word_responses (pyLowerStr trigger) = false →
      delete_response st isMod author channel trigger saveOk =
        ⟨st, some (("No response found for ").data ++ quoteChar ++ trigger ++ quoteChar),
          false⟩) ∧
    (pyLowerStr pattern ∉ st.spam_detector.spam_patterns →
      delete_spam_pattern st isMod author channel pattern saveOk =
        ⟨st, some (("Spam pattern ").data ++ quoteChar ++ pyLowerStr pattern ++ quoteChar ++
          (" not found").data), false⟩) := by
  constructor
  · intro habs
    simp [delete_response, hpriv, habs]
  · intro habs
    simp [delete_spam_pattern, hpriv, habs]

/-- Claim C9 witness: for the moderator "bob", deleting the absent trigger
"absent" and the absent spam pattern "nonexistent" reports not-found in both
cases, with the state intact and no persistence call. -/
theorem c9_witness :
    delete_response sampleState true (("bob").data) (("chan").data) (("absent").data) true =
      ⟨sampleState, some (("No response found for ").data ++ quoteChar ++ ("absent").data ++
        quoteChar), false⟩ ∧
    delete_spam_pattern sampleState true (("bob").data) (("chan").data)
        (("nonexistent").data) true =
      ⟨sampleState, some (("Spam pattern ").data ++ quoteChar ++
        pyLowerStr (("nonexistent").data) ++ quoteChar ++ (" not found").data), false⟩ := by
  have h := c9_delete_absent sampleState true (("bob").data) (("chan").data)
    (("absent").data) (("nonexistent").data) true (by decide)
  exact ⟨h.1 (by decide), h.2 (by decide)⟩

/-- Claim C10: a spam pattern containing a punctuation character can never
match.  Cleaning removes every punctuation character from every message, and
stored patterns are only lowercased (which preserves the punctuation
character), so the pattern cannot occur as a substring of a cleaned message,
and a detector configured with that single pattern classifies no message as
spam. -/
theorem c10_punct_pattern_never_matches (p msg : List Char)
    (hp : ∃ c ∈ p, isPunctChar c = true) :
    (SpamDetector.init [p]).is_spam msg = false := by
  obtain ⟨c, hcp, hpc⟩ := hp
  cases hs : (SpamDetector.init [p]).is_spam msg
  · rfl
  · exfalso
    have hsub : isSubstringOf (pyLowerStr p) (clean_text msg) = true := by
      simpa [SpamDetector.is_spam, SpamDetector.init, pyLowerStr] using hs
    have hinf : pyLowerStr p <:+: clean_text msg := (isSubstringOf_iff _ _).mp hsub
    have hcl : pyLower c ∈ pyLowerStr p := List.mem_map.mpr ⟨c, hcp, rfl⟩
    have hcm : pyLower c ∈ clean_text msg := hinf.sublist.mem hcl
    have hfalse := (clean_text_chars hcm).2.2.1
    rw [isPunctChar_pyLower c, hpc] at hfalse
    simp at hfalse

/-- Claim C10 witness: the pattern "a-b" contains a hyphen, so even the
message "hello a-b world", which contains the pattern verbatim, is not
classified as spam (its cleaned form is "helo ab world"). -/
theorem c10_witness :
    (∃ c ∈ ("a-b").data, isPunctChar c = true) ∧
    (SpamDetector.init [("a-b").data]).is_spam (("hello a-b world").data) = false :=
  ⟨by decide, c10_punct_pattern_never_matches (("a-b").data) (("hello a-b world").data)
    (by decide)⟩
